import Mathlib

/-!
Verification of the syntax-highlighting pipeline (`src/lib.rs`).

The development shallowly embeds the highlighting pipeline:
* `is_binary` — the binary-content guard,
* the syntax-resolution fallback chain of `highlight`,
* the theme-selection step of `highlight`,
* `highlighted_rows`, `highlight_file` — the per-line renderer and table
  assembler,
* `highlight_ranges` / `LineRange` — the range filter,
* a model of the legacy request contract (absent from `src/`).

External collaborators (the syntect lexical engine, its syntax registry, and
the MIME sniffer) are opaque in the source and are therefore parameters of the
embedding: a `SyntaxSetM` supplies the registry lookups, a `LexEngine`
supplies the stateful per-line highlighter, and a `sniff` function supplies
the MIME sniff.  Machine strings are Lean `String`s; raw byte content is
`List Nat`.
-/

/-- UTF-8 size in bytes of one scalar value, as for Rust `char::len_utf8`. -/
def charSize (c : Char) : Nat :=
  if c.toNat < 0x80 then 1
  else if c.toNat < 0x800 then 2
  else if c.toNat < 0x10000 then 3
  else 4

/-- Byte length of a string under UTF-8, as for Rust `str::len`. -/
def byteLen (s : String) : Nat :=
  (s.data.map charSize).sum

/-- UTF-8 encoding of one scalar value. -/
def encodeChar (c : Char) : List Nat :=
  let n := c.toNat
  if n < 0x80 then [n]
  else if n < 0x800 then
    [0xC0 ||| (n >>> 6), 0x80 ||| (n &&& 0x3F)]
  else if n < 0x10000 then
    [0xE0 ||| (n >>> 12), 0x80 ||| ((n >>> 6) &&& 0x3F), 0x80 ||| (n &&& 0x3F)]
  else
    [0xF0 ||| (n >>> 18), 0x80 ||| ((n >>> 12) &&& 0x3F),
     0x80 ||| ((n >>> 6) &&& 0x3F), 0x80 ||| (n &&& 0x3F)]

/-- UTF-8 encoding of a string, as for Rust `str::as_bytes`. -/
def utf8Encode (s : String) : List Nat :=
  (s.data.map encodeChar).flatten

/-- Whether a byte is a UTF-8 continuation byte (`10xxxxxx`). -/
def isCont (b : Nat) : Bool :=
  decide (0x80 ≤ b) && decide (b ≤ 0xBF)

/-- Constraint on the byte after a three-byte lead, as in Rust
`core::str::validations` (rules out overlong forms and surrogates). -/
def lead3ok (b b1 : Nat) : Bool :=
  if b = 0xE0 then decide (0xA0 ≤ b1) && decide (b1 ≤ 0xBF)
  else if b = 0xED then decide (0x80 ≤ b1) && decide (b1 ≤ 0x9F)
  else isCont b1

/-- Constraint on the byte after a four-byte lead, as in Rust
`core::str::validations` (rules out overlong forms and values above
`U+10FFFF`). -/
def lead4ok (b b1 : Nat) : Bool :=
  if b = 0xF0 then decide (0x90 ≤ b1) && decide (b1 ≤ 0xBF)
  else if b = 0xF4 then decide (0x80 ≤ b1) && decide (b1 ≤ 0x8F)
  else isCont b1

/-- UTF-8 validity of a byte sequence, as decided by Rust
`std::str::from_utf8`. -/
def utf8Valid : List Nat → Bool
  | [] => true
  | b :: rest =>
    if b ≤ 0x7F then utf8Valid rest
    else if b < 0xC2 then false
    else if b ≤ 0xDF then
      match rest with
      | b1 :: r => isCont b1 && utf8Valid r
      | [] => false
    else if b ≤ 0xEF then
      match rest with
      | b1 :: b2 :: r => lead3ok b b1 && isCont b2 && utf8Valid r
      | _ => false
    else if b ≤ 0xF4 then
      match rest with
      | b1 :: b2 :: b3 :: r => lead4ok b b1 && isCont b2 && isCont b3 && utf8Valid r
      | _ => false
    else false

/-- Rust `str::starts_with` with a string pattern (structurally recursive
so that proofs can evaluate it). -/
def strStartsWith (s p : String) : Bool :=
  List.isPrefixOf p.data s.data

/-- `is_binary` (src/lib.rs:84-94): content that decodes as UTF-8 is not
binary; otherwise a MIME sniff decides, and undeterminable content is binary.
The sniffer (`mime_sniffer` crate) is an opaque parameter. -/
def is_binary (sniff : List Nat → Option String) (content : List Nat) : Bool :=
  if utf8Valid content then false
  else
    match sniff content with
    | some m => !(strStartsWith m "text/")
    | none => true

/-- Split a character list into lines, each keeping its trailing newline, as
syntect `LinesWithEndings`.  `acc` holds the current line, reversed. -/
def splitKeepNl : List Char → List Char → List (List Char)
  | [], acc => if acc.isEmpty then [] else [acc.reverse]
  | c :: cs, acc =>
    if c = '\n' then (('\n' :: acc).reverse) :: splitKeepNl cs []
    else splitKeepNl cs (c :: acc)

/-- Lines of the input with terminators attached, as syntect
`LinesWithEndings::from`: the final segment is emitted only when nonempty. -/
def linesWithEndings (s : String) : List String :=
  (splitKeepNl s.data []).map String.mk

/-- One decimal digit character. -/
def decDigit : Nat → Char
  | 0 => '0'
  | 1 => '1'
  | 2 => '2'
  | 3 => '3'
  | 4 => '4'
  | 5 => '5'
  | 6 => '6'
  | 7 => '7'
  | 8 => '8'
  | _ => '9'

/-- Decimal digits of a number, most significant first, as Rust `format!`
with `{}` on an unsigned integer.  The first argument is recursion fuel;
`fuel = n + 1` always suffices, and structural recursion keeps the function
evaluable inside proofs. -/
def decReprAux : Nat → Nat → List Char
  | 0, _ => []
  | fuel + 1, n =>
    if n < 10 then [decDigit n]
    else decReprAux fuel (n / 10) ++ [decDigit (n % 10)]

/-- Decimal rendering of a line number, as Rust `format!("{}", row_num)`. -/
def decRepr (n : Nat) : String :=
  String.mk (decReprAux (n + 1) n)

/-- A theme handle; identity only (the color data lives in the external
lexical engine). -/
structure Theme where
  name : String
deriving DecidableEq

/-- Modelled from the spec: the process-wide immutable theme registry
(`THEME_SET`, loaded by the external syntect `ThemeSet` at src/lib.rs:23-25;
its contents are not part of `src/`).  Per the spec's modern contract it
holds the two fixed built-in themes, under the names the source looks up. -/
def THEME_SET : List (String × Theme) :=
  [("Sourcegraph (light)", ⟨"Sourcegraph (light)"⟩),
   ("Sourcegraph", ⟨"Sourcegraph"⟩)]

/-- A grammar handle; identity only. -/
structure SyntaxRef where
  name : String
deriving DecidableEq

/-- The registry lookups the resolver uses (`SYNTAX_SET`, src/lib.rs:19-21);
the registry itself is external, so the lookups are opaque parameters. -/
structure SyntaxSetM where
  find_syntax_by_extension : String → Option SyntaxRef
  find_syntax_by_first_line : String → Option SyntaxRef
  find_syntax_plain_text : SyntaxRef

/-- The stateful per-line highlighter (syntect `HighlightLines`): `new`
builds the initial state from a grammar and theme; `step` renders one line to
inline-styled HTML (`highlight` + `append_highlighted_html_for_styled_line`
with `IncludeBackground::No`) and advances the state. -/
structure LexEngine (σ : Type) where
  new : SyntaxRef → Theme → σ
  step : σ → String → String × σ

/-- Split a character list at every occurrence of `sep`, as `str::split`
on a single-character pattern (structurally recursive so that proofs can
evaluate it). -/
def splitOnChar (sep : Char) : List Char → List (List Char)
  | [] => [[]]
  | c :: cs =>
    if c = sep then [] :: splitOnChar sep cs
    else
      match splitOnChar sep cs with
      | [] => [[c]]
      | l :: ls => (c :: l) :: ls

/-- Components of a path between separators, skipping empty and `.`
components, as Rust `Path::components` does for normal components. -/
def pathComponents (p : String) : List String :=
  ((splitOnChar '/' p.data).map String.mk).filter (fun c => c ≠ "" && c ≠ ".")

/-- Rust `Path::file_name`: the last normal component, none when the path is
empty or ends in `..`. -/
def fileName (p : String) : Option String :=
  match (pathComponents p).getLast? with
  | some c => if c = ".." then none else some c
  | none => none

/-- Rust `Path::extension`: the part of the file name after its last dot,
none when there is no dot or the only dot leads the name. -/
def extensionOf (p : String) : Option String :=
  (fileName p).bind (fun f =>
    match (splitOnChar '.' f.data).map String.mk with
    | [] => none
    | [_] => none
    | "" :: [_] => none
    | parts => parts.getLast?)

/-- The resolver chain of `highlight` (src/lib.rs:47-75): whole file name,
then extension, then first line of the code, then the plain-text grammar. -/
def resolve_syntax_def (S : SyntaxSetM) (filepath code : String) : SyntaxRef :=
  let file_name := (fileName filepath).getD ""
  let extension := (extensionOf filepath).getD ""
  ((((S.find_syntax_by_extension file_name).orElse
      (fun _ => S.find_syntax_by_extension extension)).orElse
      (fun _ => S.find_syntax_by_first_line code)).getD
    S.find_syntax_plain_text)

/-- `start_table_row` (src/lib.rs:146-148). -/
def start_table_row (row_num : Nat) : String :=
  "<tr><td class=\"line\" data-line=\"" ++ decRepr row_num ++
    "\"></td><td class=\"code\"><div>"

/-- `end_table_row` (src/lib.rs:150-152). -/
def end_table_row : String :=
  "</div></td></tr>"

/-- `start_highlighted_table` (src/lib.rs:138-140). -/
def start_highlighted_table : String :=
  "<table><tbody>"

/-- `end_highlighted_table` (src/lib.rs:142-144). -/
def end_highlighted_table : String :=
  "</tbody></table>"

/-- One full table row. -/
def tableRow (row_num : Nat) (content : String) : String :=
  start_table_row row_num ++ content ++ end_table_row

/-- The body of the row closure (src/lib.rs:102-107): a long line is emitted
raw (and the highlighter state is not advanced); otherwise the lexical engine
highlights the line and its state advances. -/
def render_line {σ : Type} (step : σ → String → String × σ)
    (highlight_long_lines : Bool) (st : σ) (line : String) : String × σ :=
  if !highlight_long_lines && decide (2000 < byteLen line) then (line, st)
  else step st line

/-- The rendered rows, starting at row number `n` with highlighter state
`st` (src/lib.rs:99-110). -/
def rowsAux {σ : Type} (step : σ → String → String × σ)
    (highlight_long_lines : Bool) : σ → Nat → List String → List String
  | _, _, [] => []
  | st, n, line :: rest =>
    let c := render_line step highlight_long_lines st line
    (start_table_row n ++ c.1 ++ end_table_row) ::
      rowsAux step highlight_long_lines c.2 (n + 1) rest

/-- The highlighted-or-raw content of each row, same recursion as `rowsAux`
without the framing. -/
def rowContentsAux {σ : Type} (step : σ → String → String × σ)
    (highlight_long_lines : Bool) : σ → List String → List String
  | _, [] => []
  | st, line :: rest =>
    let c := render_line step highlight_long_lines st line
    c.1 :: rowContentsAux step highlight_long_lines c.2 rest

/-- The highlighter state after consuming a list of lines. -/
def stateAfter {σ : Type} (step : σ → String → String × σ)
    (highlight_long_lines : Bool) : σ → List String → σ
  | st, [] => st
  | st, line :: rest =>
    stateAfter step highlight_long_lines
      (render_line step highlight_long_lines st line).2 rest

/-- `highlighted_rows` (src/lib.rs:96-111): one row per line, numbered from
1, rendered with a fresh engine state. -/
def highlighted_rows {σ : Type} (E : LexEngine σ) (code : String)
    (syn : SyntaxRef) (theme : Theme) (highlight_long_lines : Bool) :
    List String :=
  rowsAux E.step highlight_long_lines (E.new syn theme) 1
    (linesWithEndings code)

/-- Concatenation of a list of strings, as the accumulating `push_str`
loops of the source. -/
def strJoin : List String → String
  | [] => ""
  | s :: ss => s ++ strJoin ss

/-- `highlight_file` (src/lib.rs:126-136): table framing around the
concatenated rows. -/
def highlight_file {σ : Type} (E : LexEngine σ) (code : String)
    (syn : SyntaxRef) (theme : Theme) (highlight_long_lines : Bool) : String :=
  start_highlighted_table ++
    strJoin (highlighted_rows E code syn theme highlight_long_lines) ++
    end_highlighted_table

/-- `LineRange` (src/lib.rs:214-217); the source field `end` is `stop`
here (`end` is a Lean keyword). -/
structure LineRange where
  start : Nat
  stop : Nat
deriving DecidableEq

/-- `LineRange::contains` (src/lib.rs:219-223). -/
def LineRange.contains (r : LineRange) (line_num : Nat) : Bool :=
  decide (r.start ≤ line_num) && decide (line_num ≤ r.stop)

/-- `highlight_ranges` (src/lib.rs:113-124), translated as written: for each
row, the group at index `i` receives the row when `ranges[i].contains(i)`
holds — `i` being the enumeration index of the output groups. -/
def highlight_ranges {σ : Type} (E : LexEngine σ) (code : String)
    (syn : SyntaxRef) (theme : Theme) (highlight_long_lines : Bool)
    (ranges : List LineRange) : List (List String) :=
  (highlighted_rows E code syn theme highlight_long_lines).foldl
    (fun output row =>
      (output.zip ranges.enum).map
        (fun p => if p.2.2.contains p.2.1 then p.1 ++ [row] else p.1))
    (List.replicate ranges.length ([] : List String))

/-- `HighlightError` (src/lib.rs:154-157). -/
inductive HighlightError where
  | Binary
deriving DecidableEq

/-- Result of `highlight`; `panic` models an `expect` abort, which is not a
return value of the source function. -/
inductive Outcome where
  | ok (html : String)
  | err (e : HighlightError)
  | panic (msg : String)
deriving DecidableEq

/-- `highlight` (src/lib.rs:32-82): binary guard, then theme selection
(whose failure is an `expect` panic), then syntax resolution, then
rendering. -/
def highlight {σ : Type} (S : SyntaxSetM) (E : LexEngine σ)
    (sniff : List Nat → Option String) (code filepath : String)
    (is_light_theme highlight_long_lines : Bool) : Outcome :=
  if is_binary sniff (utf8Encode code) then .err .Binary
  else
    let themeOpt :=
      if is_light_theme then List.lookup "Sourcegraph (light)" THEME_SET
      else List.lookup "Sourcegraph" THEME_SET
    match themeOpt with
    | none => .panic "theme should be compiled with the binary"
    | some theme =>
      let syntax_def := resolve_syntax_def S filepath code
      .ok (highlight_file E code syntax_def theme highlight_long_lines)

/-! ## Definitions taken from the spec's wording (for refinement claims) -/

/-- Formalizes the spec's exact HTML row format: one `<tr>` fragment per
content, numbered in decimal from `n`. -/
def specRowsHtml : Nat → List String → String
  | _, [] => ""
  | n, c :: cs =>
    "<tr><td class=\"line\" data-line=\"" ++ decRepr n ++
      "\"></td><td class=\"code\"><div>" ++ c ++ "</div></td></tr>" ++
      specRowsHtml (n + 1) cs

/-- Formalizes the spec's exact whole-document format: table framing around
the rows, numbered from 1. -/
def specTableHtml (contents : List String) : String :=
  "<table><tbody>" ++ specRowsHtml 1 contents ++ "</tbody></table>"

/-- Formalizes the spec's Range Filter contract: the row whose 1-based line
number is `n` is appended to every range whose interval contains `n`, one
output group per range, in range order. -/
def filter_ranges_spec {σ : Type} (E : LexEngine σ) (code : String)
    (syn : SyntaxRef) (theme : Theme) (highlight_long_lines : Bool)
    (ranges : List LineRange) : List (List String) :=
  let rows := highlighted_rows E code syn theme highlight_long_lines
  ranges.map (fun r =>
    (rows.enum.filter (fun p => r.contains (p.1 + 1))).map (fun p => p.2))

/-- Formalizes the spec's `is_plaintext` flag: whether the resolver chain
fell through to the plain-text grammar. -/
def resolveIsPlain (S : SyntaxSetM) (filepath code : String) : Bool :=
  (((S.find_syntax_by_extension ((fileName filepath).getD "")).orElse
      (fun _ => S.find_syntax_by_extension ((extensionOf filepath).getD ""))).orElse
      (fun _ => S.find_syntax_by_first_line code)).isNone

/-! ## Concrete instances used for witnesses and counterexamples -/

/-- An identity lexical engine: each line renders to itself. -/
def idE : LexEngine Unit := ⟨fun _ _ => (), fun st l => (l, st)⟩

/-- A marking lexical engine: rendered output differs from the raw line. -/
def markE : LexEngine Unit := ⟨fun _ _ => (), fun st l => ("H" ++ l, st)⟩

/-- A concrete plain-text grammar handle. -/
def plainRef : SyntaxRef := ⟨"Plain Text"⟩

/-- A concrete Go grammar handle. -/
def goRef : SyntaxRef := ⟨"Go"⟩

/-- A concrete Dockerfile grammar handle. -/
def dockerRef : SyntaxRef := ⟨"Dockerfile"⟩

/-- A registry with no matches at all. -/
def emptySS : SyntaxSetM := ⟨fun _ => none, fun _ => none, plainRef⟩

/-- A registry matching only the extension `go`. -/
def goSS : SyntaxSetM :=
  ⟨fun e => if e = "go" then some goRef else none, fun _ => none, plainRef⟩

/-- A registry matching only the whole file name `Dockerfile`. -/
def dockerSS : SyntaxSetM :=
  ⟨fun e => if e = "Dockerfile" then some dockerRef else none,
   fun _ => none, plainRef⟩

/-- A sniffer that never determines a MIME type. -/
def noSniff : List Nat → Option String := fun _ => none

/-- A concrete light theme handle. -/
def lightTheme : Theme := ⟨"Sourcegraph (light)"⟩

/-! ## Helper lemmas -/

theorem rowsAux_length {σ : Type} (step : σ → String → String × σ)
    (hll : Bool) (ls : List String) :
    ∀ st n, (rowsAux step hll st n ls).length = ls.length := by
  induction ls with
  | nil => intro st n; rfl
  | cons l ls ih => intro st n; simp [rowsAux, ih]

theorem rowContentsAux_length {σ : Type} (step : σ → String → String × σ)
    (hll : Bool) (ls : List String) :
    ∀ st, (rowContentsAux step hll st ls).length = ls.length := by
  induction ls with
  | nil => intro st; rfl
  | cons l ls ih => intro st; simp [rowContentsAux, ih]

theorem rowsAux_get? {σ : Type} (step : σ → String → String × σ)
    (hll : Bool) (ls : List String) :
    ∀ st n k, (rowsAux step hll st n ls)[k]? =
      ((rowContentsAux step hll st ls)[k]?).map (fun c => tableRow (n + k) c) := by
  induction ls with
  | nil => intro st n k; simp [rowsAux, rowContentsAux]
  | cons l ls ih =>
    intro st n k
    cases k with
    | zero => simp [rowsAux, rowContentsAux, tableRow]
    | succ k =>
      have harith : n + (k + 1) = (n + 1) + k := by omega
      simp only [rowsAux, rowContentsAux, List.getElem?_cons_succ, ih, harith]

theorem strJoin_rowsAux {σ : Type} (step : σ → String → String × σ)
    (hll : Bool) (ls : List String) :
    ∀ st n, strJoin (rowsAux step hll st n ls) =
      specRowsHtml n (rowContentsAux step hll st ls) := by
  induction ls with
  | nil => intro st n; rfl
  | cons l ls ih =>
    intro st n
    simp only [rowsAux, rowContentsAux, strJoin, specRowsHtml, ih,
      start_table_row, end_table_row, String.append_assoc]

theorem rowContentsAux_get? {σ : Type} (step : σ → String → String × σ)
    (hll : Bool) (ls : List String) :
    ∀ st k l, ls[k]? = some l →
      (rowContentsAux step hll st ls)[k]? =
        some (render_line step hll (stateAfter step hll st (ls.take k)) l).1 := by
  induction ls with
  | nil => intro st k l h; simp at h
  | cons x ls ih =>
    intro st k l h
    cases k with
    | zero =>
      simp only [List.getElem?_cons_zero, Option.some.injEq] at h
      subst h
      simp [rowContentsAux, stateAfter]
    | succ k =>
      simp only [List.getElem?_cons_succ] at h
      simp only [rowContentsAux, List.getElem?_cons_succ, List.take_succ_cons,
        stateAfter]
      exact ih _ k l h

theorem splitKeepNl_ne_nil (cs : List Char) :
    ∀ acc l, l ∈ splitKeepNl cs acc → l ≠ [] := by
  induction cs with
  | nil =>
    intro acc l h
    simp only [splitKeepNl] at h
    split at h
    · simp at h
    · next hne =>
      simp only [List.mem_singleton] at h
      subst h
      simp only [ne_eq, List.reverse_eq_nil_iff]
      intro hx
      rw [hx] at hne
      simp at hne
  | cons c cs ih =>
    intro acc l h
    simp only [splitKeepNl] at h
    split at h
    · rcases List.mem_cons.mp h with h1 | h2
      · subst h1; simp
      · exact ih [] l h2
    · exact ih (c :: acc) l h

theorem linesWithEndings_ne_empty (s : String) :
    ∀ l ∈ linesWithEndings s, l ≠ "" := by
  intro l hl
  simp only [linesWithEndings, List.mem_map] at hl
  obtain ⟨cl, hcl, rfl⟩ := hl
  have hne := splitKeepNl_ne_nil s.data [] cl hcl
  intro h
  apply hne
  have : (String.mk cl).data = ("" : String).data := by rw [h]
  simpa using this

theorem decDigit_ne_zero (n : Nat) (h : n ≠ 0) : decDigit n ≠ '0' := by
  match n with
  | 0 => exact absurd rfl h
  | 1 => decide
  | 2 => decide
  | 3 => decide
  | 4 => decide
  | 5 => decide
  | 6 => decide
  | 7 => decide
  | 8 => decide
  | n + 9 => simp only [decDigit]; decide

theorem decReprAux_ne_nil (fuel n : Nat) (hf : 0 < fuel) :
    decReprAux fuel n ≠ [] := by
  match fuel with
  | 0 => omega
  | fuel + 1 =>
    rw [decReprAux]
    split
    · simp
    · simp

theorem decReprAux_head_ne_zero (fuel : Nat) :
    ∀ n, n < 10 ^ fuel → 0 < n → (decReprAux fuel n).head? ≠ some '0' := by
  induction fuel with
  | zero => intro n hf h; simp at hf; omega
  | succ fuel ih =>
    intro n hf h
    rw [decReprAux]
    split
    · next hlt =>
      simp only [List.head?_cons, ne_eq, Option.some.injEq]
      exact decDigit_ne_zero n (by omega)
    · next hge =>
      have hfuel : 0 < fuel := by
        by_contra hc
        have : fuel = 0 := by omega
        subst this
        simp [pow_succ, pow_zero] at hf
        omega
      obtain ⟨a, as, e⟩ :=
        List.exists_cons_of_ne_nil (decReprAux_ne_nil fuel (n / 10) hfuel)
      have hdiv : n / 10 < 10 ^ fuel := by
        rw [Nat.div_lt_iff_lt_mul (by omega)]
        calc n < 10 ^ (fuel + 1) := hf
        _ = 10 ^ fuel * 10 := by rw [pow_succ]
      have h10 : 0 < n / 10 := by omega
      have := ih (n / 10) hdiv h10
      rw [e] at this ⊢
      simpa using this

theorem decRepr_head_ne_zero (n : Nat) (h : 0 < n) :
    (decRepr n).data.head? ≠ some '0' := by
  have hn : n < 10 ^ (n + 1) := by
    calc n < 2 ^ n := Nat.lt_two_pow n
    _ ≤ 10 ^ n := Nat.pow_le_pow_left (by omega) n
    _ ≤ 10 ^ (n + 1) := Nat.pow_le_pow_right (by omega) (by omega)
  exact decReprAux_head_ne_zero (n + 1) n hn h

/-! ## Claim theorems -/

/-- C10: for the empty input string and any filepath, theme flag, and
long-line flag, `highlight` succeeds (the empty byte sequence is valid UTF-8
and never classified binary) and returns exactly the empty table, with zero
rows. -/
theorem c10_empty_input {σ : Type} (S : SyntaxSetM) (E : LexEngine σ)
    (sniff : List Nat → Option String) (filepath : String)
    (is_light_theme highlight_long_lines : Bool) :
    highlight S E sniff "" filepath is_light_theme highlight_long_lines =
      .ok "<table><tbody></tbody></table>" ∧
    is_binary sniff (utf8Encode "") = false := by
  refine ⟨?_, rfl⟩
  cases is_light_theme <;> rfl

/-- C1: for every input not classified as binary and either value of
`is_light_theme`, theme selection succeeds: the boolean selects one of the
two fixed built-in themes present in the registry, the `expect` panic branch
is unreachable, and `highlight` succeeds. -/
theorem c1_theme_selection_total {σ : Type} (S : SyntaxSetM) (E : LexEngine σ)
    (sniff : List Nat → Option String) (code filepath : String)
    (is_light_theme highlight_long_lines : Bool)
    (hb : is_binary sniff (utf8Encode code) = false) :
    (if is_light_theme then List.lookup "Sourcegraph (light)" THEME_SET
     else List.lookup "Sourcegraph" THEME_SET).isSome = true ∧
    (∃ html, highlight S E sniff code filepath is_light_theme
      highlight_long_lines = .ok html) ∧
    (∀ msg, highlight S E sniff code filepath is_light_theme
      highlight_long_lines ≠ .panic msg) := by
  have h1 : List.lookup "Sourcegraph (light)" THEME_SET =
      some ⟨"Sourcegraph (light)"⟩ := rfl
  have h2 : List.lookup "Sourcegraph" THEME_SET = some ⟨"Sourcegraph"⟩ := rfl
  cases is_light_theme <;> simp [highlight, hb, h1, h2]

/-- C1 witness: a concrete non-binary input for which both light and dark
calls succeed. -/
theorem c1_witness :
    is_binary noSniff (utf8Encode "fn main") = false ∧
    (∃ html, highlight emptySS idE noSniff "fn main" "a.rs" true true =
      .ok html) ∧
    (∃ html, highlight emptySS idE noSniff "fn main" "a.rs" false true =
      .ok html) := by
  refine ⟨rfl, ?_, ?_⟩
  · exact (c1_theme_selection_total emptySS idE noSniff "fn main" "a.rs"
      true true rfl).2.1
  · exact (c1_theme_selection_total emptySS idE noSniff "fn main" "a.rs"
      false true rfl).2.1

/-- C4: the resolver tries, in order and each only if the previous found no
match, the whole base file name, the file extension, the first line of the
code, and finally the plain-text grammar; a grammar registered under the
exact file name `Dockerfile` is selected for a file of that name. -/
theorem c4_resolver_fallback_order (S : SyntaxSetM) (filepath code : String) :
    (∀ g, S.find_syntax_by_extension ((fileName filepath).getD "") = some g →
        resolve_syntax_def S filepath code = g) ∧
    (S.find_syntax_by_extension ((fileName filepath).getD "") = none →
      ∀ g, S.find_syntax_by_extension ((extensionOf filepath).getD "") = some g →
        resolve_syntax_def S filepath code = g) ∧
    (S.find_syntax_by_extension ((fileName filepath).getD "") = none →
      S.find_syntax_by_extension ((extensionOf filepath).getD "") = none →
      ∀ g, S.find_syntax_by_first_line code = some g →
        resolve_syntax_def S filepath code = g) ∧
    (S.find_syntax_by_extension ((fileName filepath).getD "") = none →
      S.find_syntax_by_extension ((extensionOf filepath).getD "") = none →
      S.find_syntax_by_first_line code = none →
        resolve_syntax_def S filepath code = S.find_syntax_plain_text) ∧
    (∀ g, S.find_syntax_by_extension "Dockerfile" = some g →
        resolve_syntax_def S "Dockerfile" code = g) := by
  have hf : (fileName "Dockerfile").getD "" = "Dockerfile" := rfl
  refine ⟨?_, ?_, ?_, ?_, ?_⟩
  · intro g hg
    simp [resolve_syntax_def, hg, Option.orElse]
  · intro hone g hg
    simp [resolve_syntax_def, hone, hg, Option.orElse]
  · intro hone htwo g hg
    simp [resolve_syntax_def, hone, htwo, hg, Option.orElse]
  · intro hone htwo hthree
    simp [resolve_syntax_def, hone, htwo, hthree, Option.orElse]
  · intro g hg
    simp [resolve_syntax_def, hf, hg, Option.orElse]

/-- C4 witness: concrete registries where the Dockerfile name match and the
second (extension) fallback step fire. -/
theorem c4_witness :
    resolve_syntax_def dockerSS "Dockerfile" "FROM alpine" = dockerRef ∧
    resolve_syntax_def goSS "a.go" "" = goRef := by
  constructor
  · exact (c4_resolver_fallback_order dockerSS "Dockerfile" "FROM alpine").2.2.2.2
      dockerRef (by decide)
  · exact (c4_resolver_fallback_order goSS "a.go" "").2.1 (by decide) goRef
      (by decide)

/-- C3: `is_binary` holds exactly when the bytes are invalid UTF-8 and the
MIME sniff yields no type or a non-`text/` type; valid UTF-8 is never
binary; and `highlight` returns the `Binary` error exactly on
binary-classified input (so no later stage can be reached then). -/
theorem c3_binary_guard (sniff : List Nat → Option String) (bytes : List Nat) :
    (is_binary sniff bytes = true ↔
      (utf8Valid bytes = false ∧
        ∀ m, sniff bytes = some m → strStartsWith m "text/" = false)) ∧
    (utf8Valid bytes = true → is_binary sniff bytes = false) ∧
    (∀ (σ : Type) (S : SyntaxSetM) (E : LexEngine σ) (code filepath : String)
        (lt hll : Bool),
      highlight S E sniff code filepath lt hll = .err .Binary ↔
        is_binary sniff (utf8Encode code) = true) := by
  have h1 : List.lookup "Sourcegraph (light)" THEME_SET =
      some ⟨"Sourcegraph (light)"⟩ := rfl
  have h2 : List.lookup "Sourcegraph" THEME_SET = some ⟨"Sourcegraph"⟩ := rfl
  refine ⟨?_, ?_, ?_⟩
  · unfold is_binary
    by_cases hv : utf8Valid bytes
    · simp [hv]
    · simp only [Bool.not_eq_true] at hv
      cases hs : sniff bytes with
      | none => simp [hv, hs]
      | some m => simp [hv, hs, Bool.not_eq_true']
  · intro hv
    simp [is_binary, hv]
  · intro σ S E code fp lt hll
    cases hb : is_binary sniff (utf8Encode code) with
    | true => simp [highlight, hb]
    | false =>
      simp only [highlight, hb, Bool.false_eq_true, if_false]
      cases lt <;> simp [h1, h2]

/-- C3 witness: concrete binary (invalid UTF-8, no sniffed type) and text
bytes, and the `highlight`-level equivalence at a concrete call. -/
theorem c3_witness :
    is_binary noSniff [0xFF] = true ∧
    is_binary noSniff [104] = false ∧
    (highlight emptySS idE noSniff "hello" "f.xyz" true true = .err .Binary ↔
      is_binary noSniff (utf8Encode "hello") = true) := by
  refine ⟨?_, ?_, ?_⟩
  · exact (c3_binary_guard noSniff [0xFF]).1.mpr
      ⟨by decide, fun m hm => by simp [noSniff] at hm⟩
  · exact (c3_binary_guard noSniff [104]).2.1 (by decide)
  · exact (c3_binary_guard noSniff (utf8Encode "hello")).2.2 Unit emptySS idE
      "hello" "f.xyz" true true

/-- C2: evaluation of the range filter at a failing input.  The source tests
`ranges[i].contains(i)` with the enumeration index of the output groups, not
the row's 1-based line number, so on a two-line input the group of the range
[1, 2] stays empty, while the spec-side filter puts both rows in it. -/
theorem c2_range_filter_failing_input :
    highlight_ranges idE "a\nb\n" plainRef lightTheme true [⟨1, 2⟩] = [[]] ∧
    filter_ranges_spec idE "a\nb\n" plainRef lightTheme true [⟨1, 2⟩] =
      [[tableRow 1 "a\n", tableRow 2 "b\n"]] ∧
    ([[]] : List (List String)) ≠ [[tableRow 1 "a\n", tableRow 2 "b\n"]] := by
  refine ⟨by decide, by decide, by decide⟩

/-- C6: the successful HTML is bit-exact: the table framing, then one row
fragment per line carrying the 1-based decimal line number (whose leading
digit is never `0`) around that line's highlighted-or-raw content. -/
theorem c6_exact_html_format {σ : Type} (E : LexEngine σ) (code : String)
    (syn : SyntaxRef) (theme : Theme) (hll : Bool) :
    highlight_file E code syn theme hll =
      specTableHtml
        (rowContentsAux E.step hll (E.new syn theme) (linesWithEndings code)) ∧
    (∀ n : Nat, (decRepr (n + 1)).data.head? ≠ some '0') := by
  constructor
  · simp only [highlight_file, specTableHtml, highlighted_rows,
      strJoin_rowsAux, start_highlighted_table, end_highlighted_table]
  · intro n
    exact decRepr_head_ne_zero (n + 1) (by omega)

/-- C6 witness: the format equality evaluated at a concrete call. -/
theorem c6_witness :
    highlight_file idE "a\n" plainRef lightTheme true = specTableHtml ["a\n"] ∧
    (decRepr 1).data.head? ≠ some '0' := by
  refine ⟨?_, (c6_exact_html_format idE "a\n" plainRef lightTheme true).2 0⟩
  rw [(c6_exact_html_format idE "a\n" plainRef lightTheme true).1]
  decide

/-- C7: one rendered row per line segment of the terminator-keeping
splitter, no segment is empty (no phantom trailing row), and the row at
index `k` is the frame numbered `k + 1` around the `k`-th line's content, so
rows follow input order with numbers 1, 2, 3, ... -/
theorem c7_row_count_and_order {σ : Type} (E : LexEngine σ) (code : String)
    (syn : SyntaxRef) (theme : Theme) (hll : Bool) :
    (highlighted_rows E code syn theme hll).length =
      (linesWithEndings code).length ∧
    (∀ l ∈ linesWithEndings code, l ≠ "") ∧
    (∀ k, (highlighted_rows E code syn theme hll)[k]? =
      ((rowContentsAux E.step hll (E.new syn theme)
        (linesWithEndings code))[k]?).map (fun c => tableRow (k + 1) c)) := by
  refine ⟨?_, linesWithEndings_ne_empty code, ?_⟩
  · simp only [highlighted_rows]
    exact rowsAux_length E.step hll (linesWithEndings code) (E.new syn theme) 1
  · intro k
    simp only [highlighted_rows]
    have h := rowsAux_get? E.step hll (linesWithEndings code) (E.new syn theme) 1 k
    simpa [Nat.add_comm] using h

/-- C7 witness: count, non-emptiness of a segment, and the indexed row shape
at a concrete call whose input ends in a line terminator. -/
theorem c7_witness :
    (highlighted_rows idE "x\n\n" plainRef lightTheme true).length =
      (linesWithEndings "x\n\n").length ∧
    "x\n" ≠ "" ∧
    (highlighted_rows idE "x\n\n" plainRef lightTheme true)[0]? =
      ((rowContentsAux idE.step true (idE.new plainRef lightTheme)
        (linesWithEndings "x\n\n"))[0]?).map (fun c => tableRow (0 + 1) c) :=
  ⟨(c7_row_count_and_order idE "x\n\n" plainRef lightTheme true).1,
    (c7_row_count_and_order idE "x\n\n" plainRef lightTheme true).2.1 "x\n"
      (by decide),
    (c7_row_count_and_order idE "x\n\n" plainRef lightTheme true).2.2 0⟩

/-- C8 (amended): the long-line guard keys on UTF-8 byte length (`str::len`),
not characters: with `highlight_long_lines = false` a row whose line exceeds
2000 bytes carries the raw line verbatim, every other row carries the
engine's rendering at its current state, and with
`highlight_long_lines = true` every row is engine-rendered. -/
theorem c8_long_line_guard {σ : Type} (E : LexEngine σ) (code : String)
    (syn : SyntaxRef) (theme : Theme) :
    (∀ k line, (linesWithEndings code)[k]? = some line →
      2000 < byteLen line →
      (highlighted_rows E code syn theme false)[k]? =
        some (tableRow (k + 1) line)) ∧
    (∀ k line, (linesWithEndings code)[k]? = some line →
      byteLen line ≤ 2000 →
      (highlighted_rows E code syn theme false)[k]? =
        some (tableRow (k + 1)
          (E.step (stateAfter E.step false (E.new syn theme)
            ((linesWithEndings code).take k)) line).1)) ∧
    (∀ k line, (linesWithEndings code)[k]? = some line →
      (highlighted_rows E code syn theme true)[k]? =
        some (tableRow (k + 1)
          (E.step (stateAfter E.step true (E.new syn theme)
            ((linesWithEndings code).take k)) line).1)) := by
  refine ⟨?_, ?_, ?_⟩
  · intro k line hk hlen
    have hd : decide (2000 < byteLen line) = true := decide_eq_true hlen
    simp only [highlighted_rows]
    rw [rowsAux_get? E.step false (linesWithEndings code) (E.new syn theme) 1 k,
      rowContentsAux_get? E.step false (linesWithEndings code)
        (E.new syn theme) k line hk]
    simp [render_line, hd, Nat.add_comm]
  · intro k line hk hlen
    have hd : decide (2000 < byteLen line) = false := decide_eq_false (by omega)
    simp only [highlighted_rows]
    rw [rowsAux_get? E.step false (linesWithEndings code) (E.new syn theme) 1 k,
      rowContentsAux_get? E.step false (linesWithEndings code)
        (E.new syn theme) k line hk]
    simp [render_line, hd, Nat.add_comm]
  · intro k line hk
    simp only [highlighted_rows]
    rw [rowsAux_get? E.step true (linesWithEndings code) (E.new syn theme) 1 k,
      rowContentsAux_get? E.step true (linesWithEndings code)
        (E.new syn theme) k line hk]
    simp [render_line, Nat.add_comm]

set_option maxRecDepth 1000000 in
/-- C8 counterexample: with `highlight_long_lines = false`, a single line of
1001 characters — at most 2000 characters, as the claim's threshold reads —
whose UTF-8 byte length is 2002 is emitted raw, not highlighted by the
engine (whose rendering of that line differs from the raw line). -/
theorem c8_counterexample :
    (String.mk (List.replicate 1001 'é')).data.length ≤ 2000 ∧
    highlighted_rows markE (String.mk (List.replicate 1001 'é')) plainRef
        lightTheme false =
      [tableRow 1 (String.mk (List.replicate 1001 'é'))] ∧
    (markE.step (markE.new plainRef lightTheme)
        (String.mk (List.replicate 1001 'é'))).1 ≠
      String.mk (List.replicate 1001 'é') := by
  refine ⟨by simp, by decide, ?_⟩
  have hstep : (markE.step (markE.new plainRef lightTheme)
      (String.mk (List.replicate 1001 'é'))).1 =
      "H" ++ String.mk (List.replicate 1001 'é') := rfl
  rw [hstep]
  intro h
  have hlen := congrArg (fun t : String => t.data.length) h
  simp only [String.data_append, List.length_append] at hlen
  simp at hlen

set_option maxRecDepth 1000000 in
/-- C8 witness: the three guard cases at concrete calls: a 2002-byte line
emitted raw, a short line engine-rendered, and a line engine-rendered under
`highlight_long_lines = true`. -/
theorem c8_witness :
    (highlighted_rows markE (String.mk (List.replicate 1001 'é')) plainRef
        lightTheme false)[0]? =
      some (tableRow (0 + 1) (String.mk (List.replicate 1001 'é'))) ∧
    (highlighted_rows markE "ab" plainRef lightTheme false)[0]? =
      some (tableRow (0 + 1)
        (markE.step (stateAfter markE.step false
          (markE.new plainRef lightTheme) ((linesWithEndings "ab").take 0))
          "ab").1) ∧
    (highlighted_rows markE "ab" plainRef lightTheme true)[0]? =
      some (tableRow (0 + 1)
        (markE.step (stateAfter markE.step true
          (markE.new plainRef lightTheme) ((linesWithEndings "ab").take 0))
          "ab").1) := by
  have hb2002 : byteLen (String.mk (List.replicate 1001 'é')) = 2002 := by
    simp [byteLen, List.map_replicate, List.sum_replicate, charSize]
  refine ⟨(c8_long_line_guard markE (String.mk (List.replicate 1001 'é'))
      plainRef lightTheme).1 0 (String.mk (List.replicate 1001 'é'))
      (by decide) (by rw [hb2002]; omega),
    (c8_long_line_guard markE "ab" plainRef lightTheme).2.1 0 "ab" (by decide)
      (by decide),
    (c8_long_line_guard markE "ab" plainRef lightTheme).2.2 0 "ab"
      (by decide)⟩

/-- C5 counterexample: two calls — one resolved to a real grammar, one
fallen through to plain text — can return the same value, so the current
contract's successful result (a bare HTML string) carries no flag that
determines whether plain-text rendering was used. -/
theorem c5_counterexample :
    ¬ ∃ f : Outcome → Bool,
      f (highlight goSS idE noSniff "x" "a.go" true true) =
        resolveIsPlain goSS "a.go" "x" ∧
      f (highlight goSS idE noSniff "x" "a.zzz" true true) =
        resolveIsPlain goSS "a.zzz" "x" := by
  rintro ⟨f, h1, h2⟩
  have he : highlight goSS idE noSniff "x" "a.go" true true =
      highlight goSS idE noSniff "x" "a.zzz" true true := by decide
  have hp1 : resolveIsPlain goSS "a.go" "x" = false := by decide
  have hp2 : resolveIsPlain goSS "a.zzz" "x" = true := by decide
  rw [hp1] at h1
  rw [← he, hp2] at h2
  rw [h1] at h2
  exact absurd h2 (by decide)

/-- C5 (amended): a text input matching no grammar still succeeds with table
HTML rendered through the plain-text grammar — unresolved syntax is never an
error — and the spec-side plain-text flag holds, but the returned success
value is the HTML string alone. -/
theorem c5_plain_text_fallback {σ : Type} (S : SyntaxSetM) (E : LexEngine σ)
    (sniff : List Nat → Option String) (code filepath : String)
    (lt hll : Bool)
    (hb : is_binary sniff (utf8Encode code) = false)
    (h1 : S.find_syntax_by_extension ((fileName filepath).getD "") = none)
    (h2 : S.find_syntax_by_extension ((extensionOf filepath).getD "") = none)
    (h3 : S.find_syntax_by_first_line code = none) :
    resolve_syntax_def S filepath code = S.find_syntax_plain_text ∧
    resolveIsPlain S filepath code = true ∧
    (∃ html, highlight S E sniff code filepath lt hll = .ok html ∧
      ∃ cs, html = specTableHtml cs) := by
  have hlk1 : List.lookup "Sourcegraph (light)" THEME_SET =
      some ⟨"Sourcegraph (light)"⟩ := rfl
  have hlk2 : List.lookup "Sourcegraph" THEME_SET = some ⟨"Sourcegraph"⟩ := rfl
  have hr : resolve_syntax_def S filepath code = S.find_syntax_plain_text := by
    simp [resolve_syntax_def, h1, h2, h3, Option.orElse]
  refine ⟨hr, ?_, ?_⟩
  · simp [resolveIsPlain, h1, h2, h3, Option.orElse]
  · cases lt with
    | false =>
      refine ⟨highlight_file E code S.find_syntax_plain_text ⟨"Sourcegraph"⟩ hll,
        by simp [highlight, hb, hlk2, hr],
        rowContentsAux E.step hll
          (E.new S.find_syntax_plain_text ⟨"Sourcegraph"⟩)
          (linesWithEndings code), ?_⟩
      simp only [highlight_file, specTableHtml, highlighted_rows,
        strJoin_rowsAux, start_highlighted_table, end_highlighted_table]
    | true =>
      refine ⟨highlight_file E code S.find_syntax_plain_text
          ⟨"Sourcegraph (light)"⟩ hll,
        by simp [highlight, hb, hlk1, hr],
        rowContentsAux E.step hll
          (E.new S.find_syntax_plain_text ⟨"Sourcegraph (light)"⟩)
          (linesWithEndings code), ?_⟩
      simp only [highlight_file, specTableHtml, highlighted_rows,
        strJoin_rowsAux, start_highlighted_table, end_highlighted_table]

/-- C5 witness: the fallback at a concrete no-match call. -/
theorem c5_witness :
    resolve_syntax_def emptySS "f.xyz" "hello" =
      emptySS.find_syntax_plain_text ∧
    resolveIsPlain emptySS "f.xyz" "hello" = true :=
  ⟨(c5_plain_text_fallback emptySS idE noSniff "hello" "f.xyz" true true rfl
      rfl rfl rfl).1,
   (c5_plain_text_fallback emptySS idE noSniff "hello" "f.xyz" true true rfl
      rfl rfl rfl).2.1⟩

/-- Modelled from the spec: the legacy request shape (spec section 6), which
has no implementation under `src/`: fields `extension`, `filepath`, `theme`
(a string name), and `code`. -/
structure LegacyRequest where
  extension : String
  filepath : String
  theme : String
  code : String
deriving DecidableEq

/-- Modelled from the spec: the legacy output shape — HTML plus a plaintext
flag, or a message with a classification code. -/
inductive LegacyResponse where
  | data (html : String) (plaintext : Bool)
  | error (message : String) (code : String)
deriving DecidableEq

/-- Modelled from the spec: the legacy resolver (spec sections 4.2, step 3,
and its error condition).  With no path, only the legacy `extension` field
and then the first line are tried, and no plain-text fallback is permitted;
with a path, the modern chain applies and falls back to plain text with the
`is_plaintext` flag set. -/
def legacy_resolve (S : SyntaxSetM) (req : LegacyRequest) :
    Option (SyntaxRef × Bool) :=
  if req.filepath = "" then
    match (S.find_syntax_by_extension req.extension).orElse
        (fun _ => S.find_syntax_by_first_line req.code) with
    | some syn => some (syn, false)
    | none => none
  else
    match (((S.find_syntax_by_extension ((fileName req.filepath).getD "")).orElse
        (fun _ => S.find_syntax_by_extension ((extensionOf req.filepath).getD ""))).orElse
        (fun _ => S.find_syntax_by_first_line req.code)) with
    | some syn => some (syn, false)
    | none => some (S.find_syntax_plain_text, true)

/-- Modelled from the spec: the legacy entry point (spec sections 6 and 7),
absent from `src/`.  The binary guard runs first; an unknown theme name is
classified `invalid_theme`; a resolution failure is classified
`invalid_extension`; otherwise the shared renderer produces the HTML and the
plaintext flag.  The legacy shape has no long-line flag, so long lines are
always highlighted. -/
def legacy_highlight {σ : Type} (S : SyntaxSetM) (E : LexEngine σ)
    (sniff : List Nat → Option String) (req : LegacyRequest) :
    LegacyResponse :=
  if is_binary sniff (utf8Encode req.code) then
    .error "cannot render binary file" ""
  else
    match List.lookup req.theme THEME_SET with
    | none => .error ("invalid theme: " ++ req.theme) "invalid_theme"
    | some theme =>
      match legacy_resolve S req with
      | none => .error ("invalid extension: " ++ req.extension) "invalid_extension"
      | some (syn, pt) => .data (highlight_file E req.code syn theme true) pt

/-- C9: the legacy entry point is distinct from the current one: an unknown
theme name yields an `invalid_theme` error, and with no path, no
extension-field match, and no first-line match, it yields an
`invalid_extension` error instead of a plain-text render. -/
theorem c9_legacy_contract {σ : Type} (S : SyntaxSetM) (E : LexEngine σ)
    (sniff : List Nat → Option String) (req : LegacyRequest)
    (hb : is_binary sniff (utf8Encode req.code) = false) :
    (List.lookup req.theme THEME_SET = none →
      legacy_highlight S E sniff req =
        .error ("invalid theme: " ++ req.theme) "invalid_theme") ∧
    (∀ th, List.lookup req.theme THEME_SET = some th →
      req.filepath = "" →
      S.find_syntax_by_extension req.extension = none →
      S.find_syntax_by_first_line req.code = none →
      legacy_highlight S E sniff req =
        .error ("invalid extension: " ++ req.extension) "invalid_extension") := by
  constructor
  · intro hth
    simp [legacy_highlight, hb, hth]
  · intro th hth hpath hext hline
    simp [legacy_highlight, hb, hth, legacy_resolve, hpath, hext, hline,
      Option.orElse]

/-- C9 witness: both legacy error classifications at concrete requests. -/
theorem c9_witness :
    legacy_highlight emptySS idE noSniff ⟨"zzz", "", "NoSuchTheme", "hi"⟩ =
      .error ("invalid theme: " ++ "NoSuchTheme") "invalid_theme" ∧
    legacy_highlight emptySS idE noSniff ⟨"zzz", "", "Sourcegraph", "hi"⟩ =
      .error ("invalid extension: " ++ "zzz") "invalid_extension" :=
  ⟨(c9_legacy_contract emptySS idE noSniff ⟨"zzz", "", "NoSuchTheme", "hi"⟩
      rfl).1 (by decide),
   (c9_legacy_contract emptySS idE noSniff ⟨"zzz", "", "Sourcegraph", "hi"⟩
      rfl).2 ⟨"Sourcegraph"⟩ (by decide) rfl rfl rfl⟩
